import Mathlib

/-!
Verification of pgAdmin4's server-type registry and utility-path resolution
(web/pgadmin/browser/server_groups/servers/types.py) and of the user-table
migration c465fee44968 (web/migrations/versions/c465fee44968_.py).

The Python code is shallowly embedded: the class-level mutable registry becomes
explicit state passing over an association list kept in insertion order (Python
dicts iterate in insertion order); exceptions and failed assertions become
`none` / `Except.error`; calls into the `os` / `sys` standard library are
supplied through an explicit environment record.
-/

/-! ## ServerType registry -/

/-- Embeds the data carried by a `ServerType` instance: the fields set in
`ServerType.__init__` (`stype`, `desc`, `spriority`).  The `utility_path`
preference handle is supplied separately, as the parsed JSON table it yields. -/
structure ServerType where
  stype : String
  desc : String
  spriority : Int
deriving DecidableEq

/-- The class-level `ServerType.registry` dict, as an association list in
insertion order (Python dicts preserve insertion order). -/
abbrev Registry := List (String × ServerType)

/-- The keys of the registry, in insertion order. -/
def registryKeys (r : Registry) : List String :=
  r.map Prod.fst

/-- Embeds `ServerType.__init__`: it asserts that `server_type` is not already a
key of the registry, then stores the new instance under that key.  A failed
assertion (duplicate key) is modelled as `none`; on success the updated registry
is returned. -/
def ServerType.init (r : Registry) (server_type description : String)
    (priority : Int) : Option Registry :=
  if server_type ∈ registryKeys r then none
  else some (r ++ [(server_type, ⟨server_type, description, priority⟩)])

/-- Embeds `ServerType.types()`: `sorted(registry.values(), key priority,
reverse)` — a stable sort of the registered descriptors by descending
priority. -/
def ServerType.types (r : Registry) : List ServerType :=
  (r.map Prod.snd).mergeSort (fun a b => decide (b.spriority ≤ a.spriority))

/-! ## Utility path resolution -/

/-- One entry of the JSON-encoded binary-path table stored in the preference:
`{version, next_major_version, binaryPath, isDefault}`.  `binaryPath` may be
JSON `null`, hence an `Option`. -/
structure BinPathEntry where
  version : Int
  next_major_version : Int
  binaryPath : Option String
  isDefault : Bool
deriving DecidableEq

/-- Embeds the loop body of `ServerType.get_utility_path`: `default_path` is the
running fallback variable; an entry whose `[version, next_major_version)` range
contains `v` and whose `binaryPath` is not null is returned immediately,
otherwise a default-flagged entry overwrites the fallback and scanning
continues. -/
def get_utility_path_from (default_path : Option String) (v : Int) :
    List BinPathEntry → Option String
  | [] => default_path
  | e :: rest =>
    if e.version ≤ v ∧ v < e.next_major_version ∧ e.binaryPath.isSome then
      e.binaryPath
    else
      get_utility_path_from (if e.isDefault then e.binaryPath else default_path)
        v rest

/-- Embeds `ServerType.get_utility_path(sversion)` applied to the parsed JSON
table: the scan starts with no fallback recorded. -/
def get_utility_path (table : List BinPathEntry) (v : Int) : Option String :=
  get_utility_path_from none v table

/-- The first entry of the table whose half-open range
`[version, next_major_version)` contains `v` (regardless of its path being
null).  Used to state claims about the scan. -/
def firstRangeMatch (table : List BinPathEntry) (v : Int) : Option BinPathEntry :=
  table.find? fun e => decide (e.version ≤ v) && decide (v < e.next_major_version)

/-- The value the `default_path` variable holds after the whole table has been
scanned, starting from `d`: the `binaryPath` of the last default-flagged entry,
or `d` if there is none.  Used to state claims about the fallback. -/
def lastDefaultPath (d : Option String) : List BinPathEntry → Option String
  | [] => d
  | e :: rest => lastDefaultPath (if e.isDefault then e.binaryPath else d) rest

/-! ## ServerType.utility -/

/-- Embeds the `if operation ... elif ...` dispatch at the top of
`ServerType.utility`: the executable name for a supported operation, `none`
for the `else` branch that raises `InternalServerError`. -/
def utilityProgram (operation : String) : Option String :=
  if operation = "backup" then some "pg_dump"
  else if operation = "backup_server" then some "pg_dumpall"
  else if operation = "restore" then some "pg_restore"
  else if operation = "sql" then some "psql"
  else none

/-- Whether a character list contains the placeholder `$DIR`.  Embeds the
Python substring test `"$DIR" in bin_path`, specialised to this fixed
four-character pattern. -/
def containsDIRAux : List Char → Bool
  | '$' :: 'D' :: 'I' :: 'R' :: _ => true
  | _ :: rest => containsDIRAux rest
  | [] => false

/-- Whether a string contains the placeholder `$DIR`. -/
def containsDIR (s : String) : Bool :=
  containsDIRAux s.data

/-- Embeds `bin_path.replace("$DIR", rep)` specialised to the fixed pattern
`$DIR`: every (left-to-right, non-overlapping) occurrence is replaced by
`rep`. -/
def replaceDIRAux (rep : List Char) : List Char → List Char
  | '$' :: 'D' :: 'I' :: 'R' :: rest => rep ++ replaceDIRAux rep rest
  | c :: rest => c :: replaceDIRAux rep rest
  | [] => []

/-- String form of `replaceDIRAux`. -/
def replaceDIR (s rep : String) : String :=
  ⟨replaceDIRAux rep.data s.data⟩

/-- The standard-library and interpreter facilities `ServerType.utility` calls
into, supplied explicitly: `os.name`, the `__file__` attribute of the
`__main__` module (absent when running under WSGI), `os.path.dirname`,
`os.path.join` and `os.path.abspath`. -/
structure UtilityEnv where
  osName : String
  mainModuleFile : Option String
  dirname : String → String
  joinPath : String → String → String
  abspath : String → String

/-- Embeds `ServerType.utility(operation, sversion)` over a parsed binary-path
table: dispatch the operation name (an unknown name raises
`InternalServerError`, modelled as `Except.error`); resolve the directory with
`get_utility_path`, returning `none` when absent; substitute `$DIR` with the
directory of the main module's file when that file is known; and return the
canonicalised join of directory and executable name (suffixed with `.exe` on
Windows, where `os.name` is `nt`). -/
def ServerType.utility (env : UtilityEnv) (table : List BinPathEntry)
    (operation : String) (sversion : Int) : Except String (Option String) :=
  match utilityProgram operation with
  | none =>
    .error ("Could not find the utility for the operation " ++ operation)
  | some res =>
    match get_utility_path table sversion with
    | none => .ok none
    | some bin_path =>
      let bin_path :=
        if containsDIR bin_path then
          match env.mainModuleFile with
          | some f => replaceDIR bin_path (env.dirname f)
          | none => bin_path
        else bin_path
      .ok (some (env.abspath (env.joinPath bin_path
        (if env.osName ≠ "nt" then res else res ++ ".exe"))))

/-! ## Migration c465fee44968 -/

/-- A row of the pre-migration `user` table, as read back by the migration's
`select id, username, email, password, active, confirmed_at, masterpass_check,
auth_source from user_old`.  Nullable columns are `Option`; the opaque
`DATETIME` value is kept as a string. -/
structure UserOldRow where
  id : Int
  username : String
  email : Option String
  password : Option String
  active : Bool
  confirmed_at : Option String
  masterpass_check : Option String
  auth_source : String
deriving DecidableEq

/-- A row of the post-migration `user` table created by the migration's
`CREATE TABLE user (...)`: the previous columns plus the `NOT NULL`
`fs_uniquifier` column (hence a plain `String`). -/
structure UserRow where
  id : Int
  username : String
  email : Option String
  password : Option String
  active : Bool
  confirmed_at : Option String
  masterpass_check : Option String
  auth_source : String
  fs_uniquifier : String
deriving DecidableEq

/-- Embeds the dict built for one old row in the migration's insert:
`{**row, 'fs_uniquifier': uuid.uuid4().hex}` — all business columns are
copied and the fresh identifier is added. -/
def migratedRow (r : UserOldRow) (u : String) : UserRow :=
  { id := r.id, username := r.username, email := r.email,
    password := r.password, active := r.active,
    confirmed_at := r.confirmed_at, masterpass_check := r.masterpass_check,
    auth_source := r.auth_source, fs_uniquifier := u }

/-- Modelled from the spec: the Python standard library's `uuid.uuid4().hex`
is not part of this repository; the spec describes it as a fresh random
128-bit value rendered as a 32-hex-character string.  `hexDigits k n` renders
the `k` low base-16 digits of `n`, most significant first, zero-padded. -/
def hexDigits : Nat → Nat → List Char
  | 0, _ => []
  | k + 1, n => hexDigits k (n / 16) ++ [Nat.digitChar (n % 16)]

/-- Modelled from the spec: `uuid.uuid4().hex` applied to a supplied random
128-bit value `n` — the 32-hex-character lowercase rendering of
`n % 2 ^ 128`. -/
def uuid4Hex (n : Nat) : String :=
  ⟨hexDigits 32 n⟩

/-- Embeds the list comprehension of the migration's insert: the rows read
from `user_old`, in order, each augmented with a fresh identifier drawn from
the random stream `rand` (one fresh draw per row). -/
def migratedRows (rand : Nat → Nat) : Nat → List UserOldRow → List UserRow
  | _, [] => []
  | i, r :: rest =>
    migratedRow r (uuid4Hex (rand i)) :: migratedRows rand (i + 1) rest

/-- Embeds the migration's `upgrade()` against a source table held as a list
of rows: the table is renamed, recreated with the new schema, the old rows are
re-inserted augmented with fresh identifiers, and the old table is dropped.
The new schema's `PRIMARY KEY (id)`, `fs_uniquifier NOT NULL UNIQUE` and
`UNIQUE (username, auth_source, fs_uniquifier)` constraints are enforced by
the database during the insert: a violation aborts the migration, modelled as
`none`; `some` is the post-upgrade table contents. -/
def upgrade (rand : Nat → Nat) (rows : List UserOldRow) :
    Option (List UserRow) :=
  let newRows := migratedRows rand 0 rows
  if (newRows.map (fun r => r.id)).Nodup ∧
      (newRows.map (fun r => r.fs_uniquifier)).Nodup ∧
      (newRows.map (fun r => (r.username, r.auth_source, r.fs_uniquifier))).Nodup
  then some newRows else none

/-- Bool test that a new row carries exactly the business columns of an old
row (all eight columns of the pre-migration schema agree). -/
def businessMatches (nr : UserRow) (r : UserOldRow) : Bool :=
  nr.id == r.id && nr.username == r.username && nr.email == r.email &&
  nr.password == r.password && nr.active == r.active &&
  nr.confirmed_at == r.confirmed_at &&
  nr.masterpass_check == r.masterpass_check && nr.auth_source == r.auth_source

/-- Bool test that two old rows agree on all eight business columns. -/
def oldMatches (r' r : UserOldRow) : Bool :=
  r'.id == r.id && r'.username == r.username && r'.email == r.email &&
  r'.password == r.password && r'.active == r.active &&
  r'.confirmed_at == r.confirmed_at &&
  r'.masterpass_check == r.masterpass_check && r'.auth_source == r.auth_source

/-- The sixteen lowercase hexadecimal digits: the digit characters of the
values 0 through 15. -/
def hexChars : List Char :=
  (List.range 16).map Nat.digitChar

/-- A 32-character lowercase hexadecimal string. -/
def isHex32 (s : String) : Prop :=
  s.length = 32 ∧ ∀ c ∈ s.data, c ∈ hexChars

/-- The spec's worked example of a binary-path table: a PostgreSQL 9 range and
a default-flagged PostgreSQL 10 range. -/
def pathExampleTable : List BinPathEntry :=
  [⟨90000, 100000, some "/usr/lib/pg9", false⟩,
   ⟨100000, 999999, some "/usr/lib/pg10", true⟩]

/-- A one-row source table used to instantiate migration claims. -/
def exOldRows : List UserOldRow :=
  [⟨1, "alice", none, none, true, none, none, "internal"⟩]

/-- The table `exOldRows` migrates to under the random stream `fun i => i`. -/
def exNewRows : List UserRow :=
  [⟨1, "alice", none, none, true, none, none, "internal",
    "00000000000000000000000000000000"⟩]

/-- A two-row source table used to instantiate migration claims. -/
def exOldRows2 : List UserOldRow :=
  [⟨1, "alice", none, none, true, none, none, "internal"⟩,
   ⟨2, "bob", none, none, true, none, none, "ldap"⟩]

/-- The table `exOldRows2` migrates to under the random stream `fun i => i`. -/
def exNewRows2 : List UserRow :=
  [⟨1, "alice", none, none, true, none, none, "internal",
    "00000000000000000000000000000000"⟩,
   ⟨2, "bob", none, none, true, none, none, "ldap",
    "00000000000000000000000000000001"⟩]

/-! ## Lemmas about the path-resolution scan -/

/-- When no entry's range contains `v`, the scan never returns early, so it
yields the running fallback after the whole table is consumed. -/
theorem get_utility_path_from_of_no_match (v : Int)
    (table : List BinPathEntry)
    (hnm : ∀ e ∈ table, ¬(e.version ≤ v ∧ v < e.next_major_version)) :
    ∀ d, get_utility_path_from d v table = lastDefaultPath d table := by
  induction table with
  | nil => intro d; rfl
  | cons e rest ih =>
    intro d
    have he : ¬(e.version ≤ v ∧ v < e.next_major_version) :=
      hnm e (List.mem_cons_self e rest)
    have hcond : ¬(e.version ≤ v ∧ v < e.next_major_version ∧
        e.binaryPath.isSome) := fun h => he ⟨h.1, h.2.1⟩
    simp only [get_utility_path_from, lastDefaultPath, if_neg hcond]
    exact ih (fun x hx => hnm x (List.mem_cons_of_mem e hx)) _

/-- When the first range match of the table has a non-null path (in particular
when every entry's path is non-null), the scan returns that entry's path,
whatever fallback has accumulated so far. -/
theorem get_utility_path_from_of_first_match (v : Int)
    (table : List BinPathEntry) (e : BinPathEntry)
    (hfind : firstRangeMatch table v = some e)
    (hp : ∀ x ∈ table, x.binaryPath.isSome) :
    ∀ d, get_utility_path_from d v table = e.binaryPath := by
  induction table with
  | nil => simp [firstRangeMatch] at hfind
  | cons a rest ih =>
    intro d
    rw [firstRangeMatch, List.find?_cons] at hfind
    by_cases ha : a.version ≤ v ∧ v < a.next_major_version
    · have : (decide (a.version ≤ v) && decide (v < a.next_major_version)) = true := by
        simp [ha.1, ha.2]
      rw [this] at hfind
      have hae : a = e := Option.some.inj hfind
      subst hae
      have hcond : a.version ≤ v ∧ v < a.next_major_version ∧
          a.binaryPath.isSome := ⟨ha.1, ha.2, hp a (List.mem_cons_self a rest)⟩
      simp only [get_utility_path_from, if_pos hcond]
    · have : (decide (a.version ≤ v) && decide (v < a.next_major_version)) = false := by
        rcases Decidable.not_and_iff_or_not.mp ha with h | h <;> simp [h]
      rw [this] at hfind
      have hcond : ¬(a.version ≤ v ∧ v < a.next_major_version ∧
          a.binaryPath.isSome) := fun h => ha ⟨h.1, h.2.1⟩
      simp only [get_utility_path_from, if_neg hcond]
      exact ih hfind (fun x hx => hp x (List.mem_cons_of_mem a hx)) _

/-- The fallback accumulated over the whole table is the `binaryPath` of the
last default-flagged entry, or the initial value if no entry is flagged. -/
theorem lastDefaultPath_eq_getLast (table : List BinPathEntry) :
    ∀ d, lastDefaultPath d table =
      ((table.filter fun e => e.isDefault).getLast?).elim d
        (fun e => e.binaryPath) := by
  induction table with
  | nil => intro d; rfl
  | cons e rest ih =>
    intro d
    rw [lastDefaultPath, ih, List.filter_cons]
    by_cases hd : e.isDefault
    · simp only [hd, if_pos, List.getLast?_cons]
      cases h : (rest.filter fun x => x.isDefault).getLast? <;> simp [h]
    · simp only [hd]
      simp

/-! ## Claim theorems: path resolution -/

/-- C1: for every version-range table and server version `v`,
`get_utility_path` returns the path of the first entry whose half-open range
`[version, next_major_version)` contains `v` (the table's entries carrying a
path, per the claim's data model); if no entry's range contains `v` it returns
the path of an entry whose default flag is set when one exists, and `none`
when neither exists. -/
theorem get_utility_path_resolution (table : List BinPathEntry) (v : Int)
    (hp : ∀ e ∈ table, e.binaryPath.isSome) :
    (∀ e, firstRangeMatch table v = some e →
      get_utility_path table v = e.binaryPath) ∧
    (firstRangeMatch table v = none →
      ((∃ e ∈ table, e.isDefault = true) →
        ∃ e ∈ table, e.isDefault = true ∧
          get_utility_path table v = e.binaryPath) ∧
      ((∀ e ∈ table, e.isDefault = false) →
        get_utility_path table v = none)) := by
  constructor
  · intro e hfind
    exact get_utility_path_from_of_first_match v table e hfind hp none
  · intro hnone
    have hnm : ∀ e ∈ table, ¬(e.version ≤ v ∧ v < e.next_major_version) := by
      intro e he hrange
      have := List.find?_eq_none.mp hnone e he
      simp [hrange.1, hrange.2] at this
    have hscan : get_utility_path table v = lastDefaultPath none table :=
      get_utility_path_from_of_no_match v table hnm none
    constructor
    · rintro ⟨e, he, hdef⟩
      have hne : (table.filter fun x => x.isDefault) ≠ [] := by
        intro hnil
        have := List.filter_eq_nil_iff.mp hnil e he
        simp [hdef] at this
      obtain ⟨d, hd⟩ := Option.ne_none_iff_exists'.mp
        (mt List.getLast?_eq_none_iff.mp hne)
      have hdmem : d ∈ table.filter fun x => x.isDefault :=
        List.mem_of_getLast?_eq_some hd
      refine ⟨d, (List.mem_filter.mp hdmem).1, ?_, ?_⟩
      · simpa using (List.mem_filter.mp hdmem).2
      · rw [hscan, lastDefaultPath_eq_getLast, hd]
        rfl
    · intro hnodef
      have hfil : (table.filter fun x => x.isDefault) = [] :=
        List.filter_eq_nil_iff.mpr (fun e he => by simp [hnodef e he])
      rw [hscan, lastDefaultPath_eq_getLast, hfil]
      rfl

/-- Concrete instance for `get_utility_path_resolution`: the spec's example
table, at version 95000 (first range matches) and at version 80000 (no range
matches, default fallback). -/
theorem get_utility_path_resolution_witness :
    (∀ e ∈ pathExampleTable, e.binaryPath.isSome) ∧
    get_utility_path pathExampleTable 95000 = some "/usr/lib/pg9" ∧
    (∃ e ∈ pathExampleTable, e.isDefault = true ∧
      get_utility_path pathExampleTable 80000 = e.binaryPath) := by
  refine ⟨by decide, ?_, ?_⟩
  · exact (get_utility_path_resolution pathExampleTable 95000 (by decide)).1
      ⟨90000, 100000, some "/usr/lib/pg9", false⟩ (by decide)
  · exact ((get_utility_path_resolution pathExampleTable 80000 (by decide)).2
      (by decide)).1 ⟨⟨100000, 999999, some "/usr/lib/pg10", true⟩, by decide, by decide⟩

/-- C9: an entry whose range contains the server version but whose
`binaryPath` is null is not returned; the scan continues past it exactly as if
resolution had started on the remaining entries. -/
theorem get_utility_path_skips_null_path (e : BinPathEntry)
    (rest : List BinPathEntry) (v : Int) (hnull : e.binaryPath = none)
    (_hlo : e.version ≤ v) (_hhi : v < e.next_major_version) :
    get_utility_path (e :: rest) v = get_utility_path rest v := by
  simp [get_utility_path, get_utility_path_from, hnull]

/-- Concrete instance for `get_utility_path_skips_null_path`: a null-path
entry whose range contains 95000 is skipped in favour of the rest of the
table. -/
theorem get_utility_path_skips_null_path_witness :
    get_utility_path [⟨90000, 100000, none, false⟩,
      ⟨90000, 100000, some "/usr/lib/pg9", false⟩] 95000 =
    get_utility_path [⟨90000, 100000, some "/usr/lib/pg9", false⟩] 95000 :=
  get_utility_path_skips_null_path ⟨90000, 100000, none, false⟩
    [⟨90000, 100000, some "/usr/lib/pg9", false⟩] 95000 rfl
    (by decide) (by decide)

/-- C10: when no entry's range contains the server version and more than one
entry is default-flagged, the path returned is the `binaryPath` of the last
default-flagged entry of the list. -/
theorem get_utility_path_last_default (table : List BinPathEntry) (v : Int)
    (hnm : ∀ e ∈ table, ¬(e.version ≤ v ∧ v < e.next_major_version))
    (hmany : 1 < (table.filter fun e => e.isDefault).length) :
    ∃ d, (table.filter fun e => e.isDefault).getLast? = some d ∧
      get_utility_path table v = d.binaryPath := by
  have hne : (table.filter fun e => e.isDefault) ≠ [] := by
    intro hnil
    rw [hnil] at hmany
    simp at hmany
  obtain ⟨d, hd⟩ := Option.ne_none_iff_exists'.mp
    (mt List.getLast?_eq_none_iff.mp hne)
  refine ⟨d, hd, ?_⟩
  rw [show get_utility_path table v = lastDefaultPath none table from
    get_utility_path_from_of_no_match v table hnm none,
    lastDefaultPath_eq_getLast, hd]
  rfl

/-- Concrete instance for `get_utility_path_last_default`: two default-flagged
entries, version 50 outside every range — the second default wins. -/
theorem get_utility_path_last_default_witness :
    ∃ d, (([⟨100, 200, some "/a", true⟩, ⟨300, 400, some "/b", true⟩] :
        List BinPathEntry).filter fun e => e.isDefault).getLast? = some d ∧
      get_utility_path ([⟨100, 200, some "/a", true⟩,
        ⟨300, 400, some "/b", true⟩] : List BinPathEntry) 50 = d.binaryPath :=
  get_utility_path_last_default
    ([⟨100, 200, some "/a", true⟩, ⟨300, 400, some "/b", true⟩] :
      List BinPathEntry) 50 (by decide) (by decide)

/-! ## Claim theorems: registry -/

/-- C5: constructing a `ServerType` whose key is already registered fails the
assertion (no registry update happens); constructing one with a fresh key
succeeds and stores the descriptor under that key. -/
theorem serverType_register (r : Registry) (k d : String) (p : Int) :
    (k ∈ registryKeys r → ServerType.init r k d p = none) ∧
    (k ∉ registryKeys r →
      ServerType.init r k d p = some (r ++ [(k, ⟨k, d, p⟩)]) ∧
      (r ++ [(k, (⟨k, d, p⟩ : ServerType))]).lookup k =
        some (⟨k, d, p⟩ : ServerType)) := by
  constructor
  · intro h
    simp [ServerType.init, h]
  · intro h
    refine ⟨by simp [ServerType.init, h], ?_⟩
    induction r with
    | nil => simp [List.lookup]
    | cons a rest ih =>
      have hka : k ≠ a.1 := by
        intro he
        exact h (by simp [registryKeys, he])
      have hbeq : (k == a.1) = false := by
        simpa using hka
      rw [List.cons_append, List.lookup, hbeq]
      exact ih (fun hm => h (by simp [registryKeys] at hm ⊢; exact Or.inr hm))

/-- Concrete instance for `serverType_register`: registering `pg` in the empty
registry succeeds; registering `pg` again fails the assertion. -/
theorem serverType_register_witness :
    ServerType.init [] "pg" "PostgreSQL" (-1) =
      some [("pg", ⟨"pg", "PostgreSQL", -1⟩)] ∧
    ServerType.init [("pg", ⟨"pg", "PostgreSQL", -1⟩)] "pg" "PostgreSQL"
      (-1) = none :=
  ⟨((serverType_register [] "pg" "PostgreSQL" (-1)).2 (by decide)).1,
    (serverType_register [("pg", ⟨"pg", "PostgreSQL", -1⟩)] "pg"
      "PostgreSQL" (-1)).1 (by decide)⟩

/-- C6: `ServerType.types` returns exactly the registered descriptors,
ordered by descending priority: the result is a permutation of the registry's
values, and every descriptor's priority is at least that of every descriptor
after it. -/
theorem serverType_types_sorted (r : Registry) :
    (ServerType.types r).Perm (r.map Prod.snd) ∧
    (ServerType.types r).Pairwise (fun a b => b.spriority ≤ a.spriority) := by
  refine ⟨List.mergeSort_perm _ _, ?_⟩
  have h := @List.sorted_mergeSort ServerType
    (fun a b : ServerType => decide (b.spriority ≤ a.spriority))
    (fun a b c hab hbc => by
      simp only [decide_eq_true_eq] at hab hbc ⊢
      exact le_trans hbc hab)
    (fun a b => by
      simp only [Bool.or_eq_true, decide_eq_true_eq]
      exact le_total b.spriority a.spriority)
    (r.map Prod.snd)
  exact h.imp (fun hab => of_decide_eq_true hab)

/-! ## Claim theorems: utility dispatch and placeholder substitution -/

/-- C4: for an operation name other than `backup`, `backup_server`, `restore`
and `sql`, `ServerType.utility` raises `InternalServerError` (it never yields
a result, absent or not); for the four supported names the dispatch does not
raise — the call returns a (possibly absent) path. -/
theorem utility_unknown_operation (env : UtilityEnv)
    (table : List BinPathEntry) (operation : String) (sversion : Int) :
    (operation ∉ (["backup", "backup_server", "restore", "sql"] :
        List String) →
      ServerType.utility env table operation sversion =
        .error ("Could not find the utility for the operation " ++
          operation)) ∧
    (operation ∈ (["backup", "backup_server", "restore", "sql"] :
        List String) →
      ∃ res, ServerType.utility env table operation sversion = .ok res) := by
  constructor
  · intro h
    have h1 : operation ≠ "backup" := fun he => h (by simp [he])
    have h2 : operation ≠ "backup_server" := fun he => h (by simp [he])
    have h3 : operation ≠ "restore" := fun he => h (by simp [he])
    have h4 : operation ≠ "sql" := fun he => h (by simp [he])
    simp [ServerType.utility, utilityProgram, h1, h2, h3, h4]
  · intro h
    have hprog : ∃ res, utilityProgram operation = some res := by
      simp only [List.mem_cons, List.not_mem_nil, or_false] at h
      rcases h with he | he | he | he
      · exact ⟨"pg_dump", by simp [utilityProgram, he]⟩
      · exact ⟨"pg_dumpall", by simp [utilityProgram, he]⟩
      · exact ⟨"pg_restore", by simp [utilityProgram, he]⟩
      · exact ⟨"psql", by simp [utilityProgram, he]⟩
    obtain ⟨res, hres⟩ := hprog
    rw [ServerType.utility, hres]
    cases hgp : get_utility_path table sversion <;> exact ⟨_, rfl⟩

/-- Concrete instance for `utility_unknown_operation`: the operation
`unknown_op` raises, while `backup` resolves without raising. -/
theorem utility_unknown_operation_witness :
    ServerType.utility ⟨"posix", none, id, fun a b => a ++ "/" ++ b, id⟩
      [] "unknown_op" 0 =
      .error "Could not find the utility for the operation unknown_op" ∧
    ∃ res, ServerType.utility
      ⟨"posix", none, id, fun a b => a ++ "/" ++ b, id⟩ [] "backup" 0 =
        .ok res :=
  ⟨(utility_unknown_operation ⟨"posix", none, id, fun a b => a ++ "/" ++ b,
      id⟩ [] "unknown_op" 0).1 (by decide),
    (utility_unknown_operation ⟨"posix", none, id, fun a b => a ++ "/" ++ b,
      id⟩ [] "backup" 0).2 (by decide)⟩

/-- C8: when the resolved binary path contains the placeholder `$DIR` and the
running application's entry point is resolvable, `ServerType.utility` replaces
the placeholder with the directory of that entry point; when it is not
resolvable the path is used unchanged — the placeholder is left intact — and
no error is raised. -/
theorem utility_dir_placeholder (env : UtilityEnv)
    (table : List BinPathEntry) (operation res : String) (sversion : Int)
    (bp : String) (hop : utilityProgram operation = some res)
    (hbp : get_utility_path table sversion = some bp)
    (hdir : containsDIR bp = true) :
    (∀ f, env.mainModuleFile = some f →
      ServerType.utility env table operation sversion =
        .ok (some (env.abspath (env.joinPath
          (replaceDIR bp (env.dirname f))
          (if env.osName ≠ "nt" then res else res ++ ".exe"))))) ∧
    (env.mainModuleFile = none →
      ServerType.utility env table operation sversion =
        .ok (some (env.abspath (env.joinPath bp
          (if env.osName ≠ "nt" then res else res ++ ".exe"))))) := by
  constructor
  · intro f hf
    rw [ServerType.utility, hop, hbp]
    simp only [hdir, if_pos, hf]
  · intro hf
    rw [ServerType.utility, hop, hbp]
    simp only [hdir, if_pos, hf]

/-- Concrete instance for `utility_dir_placeholder`: with a main module at
`/app/pga.py` the placeholder becomes `/app`; with no main module the
placeholder survives into the result. -/
theorem utility_dir_placeholder_witness :
    ServerType.utility
      ⟨"posix", some "/app/pga.py", fun _ => "/app",
        fun a b => a ++ "/" ++ b, id⟩
      [⟨90000, 100000, some "$DIR/pgbin", false⟩] "backup" 95000 =
      .ok (some "/app/pgbin/pg_dump") ∧
    ServerType.utility
      ⟨"posix", none, fun _ => "/app", fun a b => a ++ "/" ++ b, id⟩
      [⟨90000, 100000, some "$DIR/pgbin", false⟩] "backup" 95000 =
      .ok (some "$DIR/pgbin/pg_dump") :=
  ⟨(utility_dir_placeholder
      ⟨"posix", some "/app/pga.py", fun _ => "/app",
        fun a b => a ++ "/" ++ b, id⟩
      [⟨90000, 100000, some "$DIR/pgbin", false⟩] "backup" "pg_dump"
      95000 "$DIR/pgbin" rfl rfl rfl).1 "/app/pga.py" rfl,
    (utility_dir_placeholder
      ⟨"posix", none, fun _ => "/app", fun a b => a ++ "/" ++ b, id⟩
      [⟨90000, 100000, some "$DIR/pgbin", false⟩] "backup" "pg_dump"
      95000 "$DIR/pgbin" rfl rfl rfl).2 rfl⟩

/-! ## Lemmas about the migration -/

/-- A migrated row carries exactly the business columns of the old row it was
built from. -/
theorem businessMatches_migratedRow (r' r : UserOldRow) (u : String) :
    businessMatches (migratedRow r' u) r = oldMatches r' r := rfl

/-- One new row is inserted per old row. -/
theorem migratedRows_length (rand : Nat → Nat) :
    ∀ (i : Nat) (rows : List UserOldRow),
      (migratedRows rand i rows).length = rows.length
  | _, [] => rfl
  | i, _ :: rest => by
    simp [migratedRows, migratedRows_length rand (i + 1) rest]

/-- Counting new rows whose business columns match a given old row is the
same as counting old rows whose business columns match it. -/
theorem migratedRows_countP (rand : Nat → Nat) (r : UserOldRow) :
    ∀ (i : Nat) (rows : List UserOldRow),
      (migratedRows rand i rows).countP (fun nr => businessMatches nr r) =
        rows.countP (fun r' => oldMatches r' r)
  | _, [] => rfl
  | i, a :: rest => by
    simp [migratedRows, List.countP_cons, businessMatches_migratedRow,
      migratedRows_countP rand r (i + 1) rest]

/-- Every identifier assigned by the migration is some `uuid4Hex` value. -/
theorem migratedRows_fs_uniquifier (rand : Nat → Nat) :
    ∀ (i : Nat) (rows : List UserOldRow) (nr : UserRow),
      nr ∈ migratedRows rand i rows → ∃ m, nr.fs_uniquifier = uuid4Hex m := by
  intro i rows
  induction rows generalizing i with
  | nil => intro nr hnr; simp [migratedRows] at hnr
  | cons a rest ih =>
    intro nr hnr
    rcases List.mem_cons.mp hnr with h | h
    · exact ⟨rand i, by rw [h]; rfl⟩
    · exact ih (i + 1) nr h

/-- When the pre-migration rows have pairwise distinct primary keys, exactly
one of them matches a given row on all business columns. -/
theorem countP_oldMatches_eq_one (rows : List UserOldRow) (r : UserOldRow)
    (hids : (rows.map (fun x => x.id)).Nodup) (hr : r ∈ rows) :
    rows.countP (fun r' => oldMatches r' r) = 1 := by
  have h1 : 0 < rows.countP (fun r' => oldMatches r' r) :=
    List.countP_pos_iff.mpr ⟨r, hr, by simp [oldMatches]⟩
  have h2 : rows.countP (fun r' => oldMatches r' r) ≤
      rows.countP (fun r' => r'.id == r.id) := by
    refine List.countP_mono_left (fun x _ hx => ?_)
    simp only [oldMatches, Bool.and_eq_true, beq_iff_eq] at hx
    simp [hx.1.1.1.1.1.1.1]
  have h3 : rows.countP (fun r' => r'.id == r.id) =
      (rows.map (fun x => x.id)).count r.id := by
    rw [List.count, List.countP_map]
    rfl
  have h4 : (rows.map (fun x => x.id)).count r.id ≤ 1 :=
    List.nodup_iff_count_le_one.mp hids r.id
  omega

/-- Rendering `k` low hex digits yields `k` characters. -/
theorem hexDigits_length : ∀ (k n : Nat), (hexDigits k n).length = k
  | 0, _ => rfl
  | k + 1, n => by simp [hexDigits, hexDigits_length k (n / 16)]

/-- The sixteen digit characters of values below 16 are hex characters. -/
theorem digitChar_mem_hexChars (m : Nat) (h : m < 16) :
    Nat.digitChar m ∈ hexChars :=
  List.mem_map.mpr ⟨m, List.mem_range.mpr h, rfl⟩

/-- Every character rendered by `hexDigits` is a hex character. -/
theorem hexDigits_mem_hexChars (k : Nat) :
    ∀ (n : Nat), ∀ c ∈ hexDigits k n, c ∈ hexChars := by
  induction k with
  | zero => intro n c hc; simp [hexDigits] at hc
  | succ k ih =>
    intro n c hc
    rw [hexDigits, List.mem_append] at hc
    rcases hc with h | h
    · exact ih (n / 16) c h
    · rw [List.mem_singleton.mp h]
      exact digitChar_mem_hexChars _ (Nat.mod_lt _ (by norm_num))

/-- Every generated identifier is a 32-character lowercase hex string. -/
theorem uuid4Hex_isHex32 (n : Nat) : isHex32 (uuid4Hex n) :=
  ⟨hexDigits_length 32 n, hexDigits_mem_hexChars 32 n⟩

/-- Splitting `upgrade`: a successful run returns exactly the migrated rows,
and those satisfy the new table's uniqueness constraints. -/
theorem upgrade_eq_some (rand : Nat → Nat) (rows : List UserOldRow)
    (newRows : List UserRow) (hup : upgrade rand rows = some newRows) :
    newRows = migratedRows rand 0 rows ∧
    (newRows.map (fun x => x.id)).Nodup ∧
    (newRows.map (fun x => x.fs_uniquifier)).Nodup ∧
    (newRows.map (fun x =>
      (x.username, x.auth_source, x.fs_uniquifier))).Nodup := by
  simp only [upgrade] at hup
  split at hup
  · obtain rfl := Option.some.inj hup
    exact ⟨rfl, by assumption⟩
  · cases hup

/-! ## Claim theorems: migration -/

/-- C2: for every row of the source table (whose primary keys are distinct,
as its `id` column is the primary key), a completed upgrade yields exactly one
row with the same `id`, `username`, `email`, `password`, `active`,
`confirmed_at`, `masterpass_check` and `auth_source`, whose `fs_uniquifier` is
a freshly generated 32-hex-character string; no rows besides these are
produced from pre-existing data. -/
theorem upgrade_preserves_rows (rand : Nat → Nat) (rows : List UserOldRow)
    (newRows : List UserRow)
    (hids : (rows.map (fun x => x.id)).Nodup)
    (hup : upgrade rand rows = some newRows) :
    newRows.length = rows.length ∧
    ∀ r ∈ rows,
      newRows.countP (fun nr => businessMatches nr r) = 1 ∧
      ∀ nr ∈ newRows, businessMatches nr r = true →
        isHex32 nr.fs_uniquifier := by
  obtain ⟨rfl, -, -, -⟩ := upgrade_eq_some rand rows newRows hup
  refine ⟨migratedRows_length rand 0 rows, fun r hr => ⟨?_, ?_⟩⟩
  · rw [migratedRows_countP rand r 0 rows]
    exact countP_oldMatches_eq_one rows r hids hr
  · intro nr hnr _
    obtain ⟨m, hm⟩ := migratedRows_fs_uniquifier rand 0 rows nr hnr
    rw [hm]
    exact uuid4Hex_isHex32 m

/-- Concrete instance for `upgrade_preserves_rows`: a one-row table migrated
under the random stream `fun i => i`. -/
theorem upgrade_preserves_rows_witness :
    exNewRows.length = exOldRows.length ∧
    ∀ r ∈ exOldRows,
      exNewRows.countP (fun nr => businessMatches nr r) = 1 ∧
      ∀ nr ∈ exNewRows, businessMatches nr r = true →
        isHex32 nr.fs_uniquifier :=
  upgrade_preserves_rows (fun i => i) exOldRows exNewRows (by decide)
    (by decide)

/-- C3: after a completed upgrade, every pair of distinct rows of the new
table differs in its (username, auth_source, fs_uniquifier) triple, and every
row's `fs_uniquifier` (a non-null string by the new schema) differs from
every other row's. -/
theorem upgrade_unique_constraints (rand : Nat → Nat)
    (rows : List UserOldRow) (newRows : List UserRow)
    (hup : upgrade rand rows = some newRows) :
    newRows.Pairwise (fun a b =>
      (a.username, a.auth_source, a.fs_uniquifier) ≠
        (b.username, b.auth_source, b.fs_uniquifier) ∧
      a.fs_uniquifier ≠ b.fs_uniquifier) := by
  obtain ⟨-, -, hfs, htr⟩ := upgrade_eq_some rand rows newRows hup
  have h1 : newRows.Pairwise (fun a b =>
      (a.username, a.auth_source, a.fs_uniquifier) ≠
        (b.username, b.auth_source, b.fs_uniquifier)) :=
    List.pairwise_map.mp htr
  have h2 : newRows.Pairwise
      (fun a b => a.fs_uniquifier ≠ b.fs_uniquifier) :=
    List.pairwise_map.mp hfs
  exact h1.and h2

/-- Concrete instance for `upgrade_unique_constraints`: a two-row table
migrated under the random stream `fun i => i`. -/
theorem upgrade_unique_constraints_witness :
    exNewRows2.Pairwise (fun a b =>
      (a.username, a.auth_source, a.fs_uniquifier) ≠
        (b.username, b.auth_source, b.fs_uniquifier) ∧
      a.fs_uniquifier ≠ b.fs_uniquifier) :=
  upgrade_unique_constraints (fun i => i) exOldRows2 exNewRows2 (by decide)

/-- C7: upgrading an empty source table completes without error and yields an
empty new table — the read-and-backfill steps insert no rows, while the table
is still recreated with the new schema. -/
theorem upgrade_empty_table (rand : Nat → Nat) :
    upgrade rand [] = some [] := rfl
